import Mathlib

/-!
Verification of the remote execution-state synchronization engine of the
cflat-lang VS Code extension (`src/CFlatRuntime.ts`), as a shallow embedding.

The runtime is a client of a remote debuggee's HTTP surface.  Response
bodies reach the callbacks as parsed JSON (`any`-typed); we model parsed
JSON values with `JVal` (JSON.parse never yields `undefined`, so field
lookups use `Option JVal`, with `none` standing for JS `undefined`).
JavaScript behaviours that matter to the code paths under verification are
modelled explicitly: property access on `null` throws a TypeError,
`typeof x == "string"` checks, string coercion in `+` concatenation, and
the truthiness tests the source performs.
-/

/-- A parsed JSON value (the result of `JSON.parse`). -/
inductive JVal where
  | null : JVal
  | bool : Bool → JVal
  | num : Int → JVal
  | str : String → JVal
  | arr : List JVal → JVal
  | obj : List (String × JVal) → JVal

/-- Field lookup in a parsed JSON object.  `JSON.parse` keeps one value per
key, so the field lists we consider have distinct keys. -/
def findField : List (String × JVal) → String → Option JVal
  | [], _ => none
  | (k, w) :: fs, key => if k == key then some w else findField fs key

/-- JS property access `v[key]` for a value that is known not to be `null`:
objects look up their own properties, every other value yields `undefined`
(`none`).  None of the keys the source uses (`name`, `type`, `value`,
`values`, `execution`, `sourceUri`, `breakpoints`, ...) is an array index or
`length`, so arrays also yield `undefined`. -/
def jsGetD (v : JVal) (key : String) : Option JVal :=
  match v with
  | JVal.obj fs => findField fs key
  | _ => none

/-- Whether a payload is JSON `null` (property access on it throws a
TypeError). -/
def isNull : JVal → Bool
  | JVal.null => true
  | _ => false

/-- `typeof e === "s"`-style comparison of a possibly-undefined JS value
with a string literal (strict equality). -/
def isStr (o : Option JVal) (s : String) : Bool :=
  match o with
  | some (JVal.str t) => t == s
  | _ => false

/-- JS string coercion, as used by `path + "." + varName` in
`parseVariables`.  `none` is JS `undefined`.  Numbers are printed as
integers (every numeric payload the runtime touches is integral) and the
array case is approximated (JS joins elements with `","`); neither case is
reachable from any input considered in the theorems below. -/
def jsStr : Option JVal → String
  | none => "undefined"
  | some JVal.null => "null"
  | some (JVal.bool b) => cond b "true" "false"
  | some (JVal.num n) => toString n
  | some (JVal.str s) => s
  | some (JVal.arr _) => ""
  | some (JVal.obj _) => "[object Object]"

/-! ## Path/URI normalizer (`parseUri`, lines 124-126)

`uri.replace(/\\/g, "/").replace(/(.*)\.\w+$/, "$1")`: replace every
backslash with `/`, then strip one trailing `.` + word-characters suffix.
Because `.*` is greedy and `\w` excludes `.`, the second replace removes
the final `.suffix` exactly when the text after the last dot is a nonempty
run of word characters reaching the end of the string. -/

/-- JS `\w`: ASCII letters, digits and underscore. -/
def isWordChar (c : Char) : Bool := c.isAlpha || c.isDigit || c == '_'

/-- `replace(/\\/g, "/")` on the character list. -/
def normSlashes (cs : List Char) : List Char :=
  cs.map (fun c => if c == '\\' then '/' else c)

/-- `replace(/(.*)\.\w+$/, "$1")` acting on the reversed character list:
drop the leading word-character run and a following `'.'`, if both exist. -/
def stripExtRev (rcs : List Char) : List Char :=
  match rcs.dropWhile isWordChar with
  | '.' :: rest => if (rcs.takeWhile isWordChar).isEmpty then rcs else rest
  | _ => rcs

/-- `parseUri` (lines 124-126). -/
def parseUri (uri : String) : String :=
  String.mk ((stripExtRev (normSlashes uri.toList).reverse).reverse)

/-! ## setBreakPoints (lines 145-166) -/

/-- The request path built by `setBreakPoints` after normalizing its input:
`/breakpoints/set?path=${path}&lines=${lines.join(",")}`. -/
def setBreakPointsRequest (path : String) (lines : List Int) : String :=
  "/breakpoints/set?path=" ++ parseUri path ++ "&lines=" ++
    String.intercalate "," (lines.map toString)

/-- `for (let line of lines) if (typeof line === "number") push(line)`.
Iterating an array keeps its numeric entries; iterating a string yields
1-character strings (never numbers); `for..of` over anything else throws
(`none`). -/
def numericEntries : Option JVal → Option (List Int)
  | some (JVal.arr xs) =>
      some (xs.filterMap (fun x => match x with | JVal.num n => some n | _ => none))
  | some (JVal.str _) => some []
  | _ => none

/-- The response callback of `setBreakPoints` (lines 149-165), applied to
the already-normalized path and the parsed response.  `none` models a
thrown TypeError (a `null` response, or a verified-lines field that is not
iterable while `sourceUri` is a string). -/
def setBreakPointsHandler (path : String) (r : JVal) : Option (String × List Int) :=
  if isNull r then none
  else
    match jsGetD r "sourceUri" with
    | some (JVal.str sourceUri) =>
      match numericEntries (jsGetD r "breakpoints") with
      | some breakpoints => some (sourceUri, breakpoints)
      | none => none
    | _ => some (path, [])

/-- `setBreakPoints(path, lines, callback)` (lines 145-166), as the pair of
the request it sends and the callback result it produces for a given
response. -/
def setBreakPoints (path : String) (lines : List Int) (r : JVal) :
    String × Option (String × List Int) :=
  (setBreakPointsRequest path lines, setBreakPointsHandler (parseUri path) r)

/-! ## stackTrace (lines 95-122) -/

/-- A translated stack frame (the object pushed at lines 110-116). -/
structure StackFrame where
  index : Nat
  name : String
  sourceUri : String
  line : Int
  column : Int
deriving DecidableEq, Repr

/-- The translation loop of `stackTrace` (lines 97-118): `acc` is the
`frames` array built so far, so a pushed frame's `index` is `acc.length`.
A `null` element throws on property access (`none`). -/
def translateFrames (acc : List StackFrame) : List JVal → Option (List StackFrame)
  | [] => some acc
  | f :: rest =>
    if isNull f then none
    else
      match jsGetD f "name", jsGetD f "sourceUri", jsGetD f "line", jsGetD f "column" with
      | some (JVal.str n), some (JVal.str u), some (JVal.num l), some (JVal.num c) =>
          translateFrames (acc ++ [⟨acc.length, n, u, l, c⟩]) rest
      | _, _, _, _ => translateFrames acc rest

/-- `stackTrace(startFrame, frameCount, callback)` (lines 95-122) given the
parsed `/stacktrace` response: translate every well-typed frame, then
`frames.slice(startFrame, startFrame + frameCount)`.  `startFrame` and
`frameCount` are the non-negative values the debug adapter passes.
`for..of` over a non-array, non-string response throws (`none`); a string
response iterates 1-character strings, all of which fail the field checks. -/
def stackTrace (st : JVal) (startFrame frameCount : Nat) : Option (List StackFrame) :=
  match st with
  | JVal.arr frames =>
    match translateFrames [] frames with
    | some fs => some ((fs.drop startFrame).take frameCount)
    | none => none
  | JVal.str _ => some []
  | _ => none

/-! ## Variable tree cache (lines 17, 168-241)

`_variableReferences` is a growing list of paths; a node's reference is the
1-based position of its path in that list. -/

/-- A parsed variable (the `CFlatVariable` interface, lines 5-11).
`values = none` is JS `undefined`: the node has no children and
`reference = 0`. -/
inductive CFlatVariable where
  | mk : String → String → String → Option (List CFlatVariable) → Nat → CFlatVariable

def CFlatVariable.name : CFlatVariable → String
  | CFlatVariable.mk n _ _ _ _ => n

def CFlatVariable.type : CFlatVariable → String
  | CFlatVariable.mk _ t _ _ _ => t

def CFlatVariable.value : CFlatVariable → String
  | CFlatVariable.mk _ _ v _ _ => v

def CFlatVariable.values : CFlatVariable → Option (List CFlatVariable)
  | CFlatVariable.mk _ _ _ vs _ => vs

def CFlatVariable.reference : CFlatVariable → Nat
  | CFlatVariable.mk _ _ _ _ r => r

/-- The reference-table scan in `parseVariable` (lines 218-224): linear scan
from index `i`, returning `index + 1` at the first entry equal to `path`. -/
def scanRefs : List String → String → Nat → Option Nat
  | [], _, _ => none
  | r :: rest, path, i => if r == path then some (i + 1) else scanRefs rest path (i + 1)

/-- Lines 214-228: scan `_variableReferences` for `path`; on a miss, push
`path` and use the new length as the reference. -/
def assignReference (refs : List String) (path : String) : Nat × List String :=
  match scanRefs refs path 0 with
  | some r => (r, refs)
  | none => (refs.length + 1, refs ++ [path])

/-- Result of a parse step: a value plus the reference table after the step,
or a thrown TypeError (table mutations made before the throw persist). -/
inductive PRes (α : Type) where
  | ok : α → List String → PRes α
  | thrown : List String → PRes α

/-- The reference table a parse step leaves behind. -/
def PRes.refs : PRes α → List String
  | PRes.ok _ rs => rs
  | PRes.thrown rs => rs

/-- Evaluation of `path.length > 0` where `path` holds an arbitrary JS value
(the loop accumulator of `parseVariables`): reading `.length` of
`undefined` or `null` throws (`none`); strings and arrays have a length;
numbers and booleans lack the property, making the comparison
`undefined > 0`, i.e. false; a plain object has a `length` property only if
the JSON carried one (compared when numeric, false otherwise). -/
def jsLengthPos : Option JVal → Option Bool
  | none => none
  | some JVal.null => none
  | some (JVal.str s) => some (decide (0 < s.length))
  | some (JVal.arr xs) => some (decide (0 < xs.length))
  | some (JVal.num _) => some false
  | some (JVal.bool _) => some false
  | some (JVal.obj fs) =>
    match findField fs "length" with
    | some (JVal.num n) => some (decide (0 < n))
    | _ => some false

/-- One evaluation of line 195,
`path = path.length > 0 ? path + "." + varName : varName`:
the accumulator either becomes a string concatenation (JS coerces both
sides) or is overwritten with the raw `varName` value. -/
def accStep (acc : Option JVal) (varName : Option JVal) : Option (Option JVal) :=
  match jsLengthPos acc with
  | none => none
  | some true => some (some (JVal.str (jsStr acc ++ "." ++ jsStr varName)))
  | some false => some varName

/-- Iterating a nonempty string with `for..of` (line 193, when `vars` is a
string) visits its characters, each a 1-character string whose `name`
lookup is `undefined`; such an entry always fails the string checks of
`parseVariable` and is dropped without touching the table, so only the
accumulator stepping is observable, and it throws exactly when the
accumulator is `undefined` or `null` at the start of an iteration. -/
def strEntriesStep (acc : Option JVal) : Nat → Option Unit
  | 0 => some ()
  | n + 1 =>
    match accStep acc none with
    | none => none
    | some acc1 => strEntriesStep acc1 n

mutual

/-- A computable structural size for parsed JSON values, used as the
canonical fuel of the parse functions below (`sizeOf` of a nested inductive
is not executable). -/
def jsize : JVal → Nat
  | JVal.null => 1
  | JVal.bool _ => 1
  | JVal.num _ => 1
  | JVal.str _ => 1
  | JVal.arr xs => 1 + jsizeList xs
  | JVal.obj fs => 1 + jsizeFields fs

/-- Size of a JSON array's element list. -/
def jsizeList : List JVal → Nat
  | [] => 1
  | v :: vs => 1 + jsize v + jsizeList vs

/-- Size of a JSON object's field list. -/
def jsizeFields : List (String × JVal) → Nat
  | [] => 1
  | (_, w) :: fs => 1 + jsize w + jsizeFields fs

end

/-- Size of a possibly-undefined JSON value. -/
def jsizeO : Option JVal → Nat
  | none => 1
  | some v => 1 + jsize v

mutual

/-- `parseVariable(path, v)` (lines 205-235), with a structural fuel
parameter driving the mutual recursion (the wrapper `parseVariable` below
supplies enough fuel; `parse_fuel_stable` shows the result is then
independent of the exact amount): read `name`/`type`/`value` (throws on a
`null` payload), require all three to be strings (otherwise return
`undefined` without touching the table), parse the children from
`v["values"]`, and, exactly when children were produced, assign the node a
reference keyed by `path`. -/
def parseVariableF : Nat → List String → String → JVal → PRes (Option CFlatVariable)
  | 0, refs, _, _ => PRes.thrown refs
  | fuel + 1, refs, path, v =>
    if isNull v then PRes.thrown refs
    else
      match jsGetD v "name", jsGetD v "type", jsGetD v "value" with
      | some (JVal.str name), some (JVal.str type), some (JVal.str value) =>
        match parseVariablesF fuel refs path (jsGetD v "values") with
        | PRes.ok (some values) refs1 =>
          match assignReference refs1 path with
          | (reference, refs2) =>
            PRes.ok (some (CFlatVariable.mk name type value (some values) reference)) refs2
        | PRes.ok none refs1 =>
          PRes.ok (some (CFlatVariable.mk name type value none 0)) refs1
        | PRes.thrown refs1 => PRes.thrown refs1
      | _, _, _ => PRes.ok none refs

/-- `parseVariables(path, vars)` (lines 186-203).  `vars` is the raw field
value (`none` = `undefined`).  A falsy `vars` (`undefined`, `null`,
`false`, `0`, `""`) returns `undefined`; an array runs the loop; a nonempty
string iterates its characters; any other truthy value is not iterable and
`for..of` throws. -/
def parseVariablesF : Nat → List String → String → Option JVal → PRes (Option (List CFlatVariable))
  | 0, refs, _, _ => PRes.thrown refs
  | fuel + 1, refs, path, vars =>
    match vars with
    | none => PRes.ok none refs
    | some JVal.null => PRes.ok none refs
    | some (JVal.bool false) => PRes.ok none refs
    | some (JVal.bool true) => PRes.thrown refs
    | some (JVal.num n) => if n = 0 then PRes.ok none refs else PRes.thrown refs
    | some (JVal.obj _) => PRes.thrown refs
    | some (JVal.str s) =>
      if s.length = 0 then PRes.ok none refs
      else
        match strEntriesStep (some (JVal.str path)) s.length with
        | none => PRes.thrown refs
        | some _ => PRes.ok (some []) refs
    | some (JVal.arr vs) =>
      match parseVarListF fuel refs (some (JVal.str path)) vs with
      | PRes.ok parsed refs1 => PRes.ok (some parsed) refs1
      | PRes.thrown refs1 => PRes.thrown refs1

/-- The loop body of `parseVariables` (lines 193-200) over the remaining
entries, with `acc` the current value of the reassigned `path` variable.
Per entry: read `v["name"]` (throws on a `null` entry), reassign the
accumulator (line 195, may throw), call `parseVariable` and push a truthy
result.  When the new accumulator is not a string, the entry's `name` is
not a string either, so `parseVariable` returns `undefined` without
reading its path argument or the table; that call is therefore elided. -/
def parseVarListF : Nat → List String → Option JVal → List JVal → PRes (List CFlatVariable)
  | 0, refs, _, _ => PRes.thrown refs
  | fuel + 1, refs, acc, vs =>
    match vs with
    | [] => PRes.ok [] refs
    | v :: rest =>
      if isNull v then PRes.thrown refs
      else
        match accStep acc (jsGetD v "name") with
        | none => PRes.thrown refs
        | some acc1 =>
          match acc1 with
          | some (JVal.str p) =>
            match parseVariableF fuel refs p v with
            | PRes.ok (some u) refs1 =>
              (match parseVarListF fuel refs1 acc1 rest with
               | PRes.ok l refs2 => PRes.ok (u :: l) refs2
               | PRes.thrown refs2 => PRes.thrown refs2)
            | PRes.ok none refs1 => parseVarListF fuel refs1 acc1 rest
            | PRes.thrown refs1 => PRes.thrown refs1
          | _ => parseVarListF fuel refs acc1 rest

end

/-- `parseVariable(path, v)` at its canonical fuel (sufficient by
`parse_fuel_stable`). -/
def parseVariable (refs : List String) (path : String) (v : JVal) :
    PRes (Option CFlatVariable) :=
  parseVariableF (2 * jsize v + 1) refs path v

/-- `parseVariables(path, vars)` at its canonical fuel (sufficient by
`parse_fuel_stable`). -/
def parseVariables (refs : List String) (path : String) (vars : Option JVal) :
    PRes (Option (List CFlatVariable)) :=
  parseVariablesF (2 * jsizeO vars) refs path vars

/-! ## variables and evaluate (lines 168-184, 237-241) -/

/-- What `variables(reference, callback)` (lines 168-184) does before any
request is issued: a positive in-range reference resolves the path stored
at `reference - 1` and forwards it to `evaluate`; a positive out-of-range
reference answers the callback immediately with `[]`; a non-positive
reference requests the root value list from `/values`. -/
inductive VarsAction where
  | reply : List CFlatVariable → VarsAction
  | evalPath : String → VarsAction
  | requestRoot : VarsAction

def variablesDispatch (refs : List String) (reference : Int) : VarsAction :=
  if 0 < reference then
    if reference ≤ refs.length then
      VarsAction.evalPath (refs.getD (reference - 1).toNat "")
    else VarsAction.reply []
  else VarsAction.requestRoot

/-- The callback `variables` passes to `evaluate` (lines 172-174):
`callback(v && v.values ? v.values : [])`. -/
def childrenOrEmpty : Option CFlatVariable → List CFlatVariable
  | some u => u.values.getD []
  | none => []

/-- `evaluate(path, callback)` (lines 237-241) composed with the
`variables` callback above, for a given parsed response to
`/values?path=...`. -/
def variablesViaEvaluate (refs : List String) (path : String) (v : JVal) :
    PRes (List CFlatVariable) :=
  match parseVariable refs path v with
  | PRes.ok r refs1 => PRes.ok (childrenOrEmpty r) refs1
  | PRes.thrown refs1 => PRes.thrown refs1

/-! ## Execution controller (lines 23-93)

The session's shared state: the poll timer handle (`_pollTimeout` — at most
one tracked pending timeout; `setTimeout` installs a fresh one and
`clearTimeout` cancels the stored one), the requests in flight (an issued
HTTP request is never cancelled), the events emitted through `sendEvent`
in order, and two counters: how often `setTimeout(pollExecution, interval)`
ran, and how many response callbacks ended in an uncaught exception.  The
model is single-threaded: a callback runs to completion before the next
step. -/

/-- Which callback an in-flight request's response will run: the poll
callback (lines 52-63) or `handleExecution` for a control command. -/
inductive ReqKind where
  | poll : ReqKind
  | command : ReqKind
deriving DecidableEq, Repr

/-- How a transport response presents to the dispatcher in `request`
(lines 23-35): an `Error`, or a string body with a content type.
`JSON.parse` of an `application/json` body is modelled semantically, as
the value it yields or as a parse failure. -/
inductive Delivery where
  | transportError : Delivery
  | jsonBody : JVal → Delivery
  | badJsonBody : Delivery
  | plainBody : String → Delivery
  | otherContentType : Delivery

structure RtState where
  timerPending : Bool
  inFlight : List ReqKind
  events : List String
  reschedules : Nat
  uncaught : Nat
deriving DecidableEq, Repr

/-- `stop()` (lines 73-76): clear the poll timer and emit `"end"`. -/
def stopOp (s : RtState) : RtState :=
  { s with timerPending := false, events := s.events ++ ["end"] }

/-- `pollExecution` (line 52) issues the `/execution/poll` request. -/
def issuePoll (s : RtState) : RtState :=
  { s with inFlight := s.inFlight ++ [ReqKind.poll] }

/-- `request` for a control command puts a command request in flight. -/
def issueCommand (s : RtState) : RtState :=
  { s with inFlight := s.inFlight ++ [ReqKind.command] }

/-- The `pollExecution` response callback (lines 52-63): emit a stop event
for `BreakpointPaused` or `StepPaused` without rescheduling; do nothing at
all for `ExternalPaused`; for every other value reschedule the next poll
after the poll interval.  A `null` response throws on the `execution`
property read. -/
def pollCallback (s : RtState) (resp : JVal) : RtState :=
  if isNull resp then { s with uncaught := s.uncaught + 1 }
  else
    let e := jsGetD resp "execution"
    if isStr e "BreakpointPaused" then { s with events := s.events ++ ["stopOnBreakpoint"] }
    else if isStr e "StepPaused" then { s with events := s.events ++ ["stopOnStep"] }
    else if isStr e "ExternalPaused" then s
    else { s with timerPending := true, reschedules := s.reschedules + 1 }

/-- `handleExecution` (lines 37-49), the callback for continue, step and
pause responses: emit the stop event matching the execution state and
cancel the pending poll timer; do nothing for any other value. -/
def handleExecution (s : RtState) (resp : JVal) : RtState :=
  if isNull resp then { s with uncaught := s.uncaught + 1 }
  else
    let e := jsGetD resp "execution"
    if isStr e "ExternalPaused" then
      { s with events := s.events ++ ["stopOnPause"], timerPending := false }
    else if isStr e "BreakpointPaused" then
      { s with events := s.events ++ ["stopOnBreakpoint"], timerPending := false }
    else if isStr e "StepPaused" then
      { s with events := s.events ++ ["stopOnStep"], timerPending := false }
    else s

/-- Dispatch a response to the callback of the request it answers. -/
def runCallback (s : RtState) (k : ReqKind) (v : JVal) : RtState :=
  match k with
  | ReqKind.poll => pollCallback s v
  | ReqKind.command => handleExecution s v

/-- The body of `request` (lines 24-34) when a transport response arrives:
an `Error` terminates the session via `stop()`; an `application/json`
string body is parsed and fed to the callback (a parse failure propagates
out of the callback as an uncaught exception); a `text/plain` body is
passed to the callback as the raw string; a string body with any other
content type takes no branch — the callback is never invoked. -/
def dispatch (s : RtState) (k : ReqKind) (d : Delivery) : RtState :=
  match d with
  | Delivery.transportError => stopOp s
  | Delivery.jsonBody v => runCallback s k v
  | Delivery.badJsonBody => { s with uncaught := s.uncaught + 1 }
  | Delivery.plainBody b => runCallback s k (JVal.str b)
  | Delivery.otherContentType => s

/-- `start(url, pollInterval)` (lines 66-71): clear any pending timer, then
run `pollExecution`. -/
def startOp (s : RtState) : RtState :=
  issuePoll { s with timerPending := false }

/-- `continue()` (lines 78-82): issue the control command, clear the
pending timer, and immediately restart the poll loop. -/
def continueOp (s : RtState) : RtState :=
  issuePoll { (issueCommand s) with timerPending := false }

/-- `step()` (lines 84-88): same shape as `continue()`. -/
def stepOp (s : RtState) : RtState :=
  issuePoll { (issueCommand s) with timerPending := false }

/-- `pause()` (lines 90-93): issue the command and clear the timer; the
poll loop is not restarted. -/
def pauseOp (s : RtState) : RtState :=
  { (issueCommand s) with timerPending := false }

/-- Observable steps of a session: the pending poll timeout firing (which
runs `pollExecution`), the transport delivering a response to one
in-flight request, and the public methods the front end may call. -/
inductive Act where
  | fireTimer : Act
  | deliver : ReqKind → Delivery → Act
  | callStart : Act
  | callStop : Act
  | callContinue : Act
  | callStep : Act
  | callPause : Act

def step (s : RtState) (a : Act) : RtState :=
  match a with
  | Act.fireTimer =>
    if s.timerPending then issuePoll { s with timerPending := false } else s
  | Act.deliver k d =>
    if s.inFlight.contains k then dispatch { s with inFlight := s.inFlight.erase k } k d
    else s
  | Act.callStart => startOp s
  | Act.callStop => stopOp s
  | Act.callContinue => continueOp s
  | Act.callStep => stepOp s
  | Act.callPause => pauseOp s

def run (s : RtState) (acts : List Act) : RtState := acts.foldl step s

/-- A freshly constructed runtime: no timer, no requests, no events. -/
def initState : RtState := ⟨false, [], [], 0, 0⟩

/-- Acts performed by the environment (timer and transport) rather than by
the front end. -/
def isEnvAct : Act → Bool
  | Act.fireTimer => true
  | Act.deliver _ _ => true
  | _ => false

/-- Shorthand for a `{ execution: s }` poll or command response. -/
def execResp (s : String) : JVal := JVal.obj [("execution", JVal.str s)]

/-! ## Supporting lemmas: the reference table -/

theorem scanRefs_append_some {l : List String} {p : String} {i r : Nat} (δ : List String)
    (h : scanRefs l p i = some r) : scanRefs (l ++ δ) p i = some r := by
  induction l generalizing i with
  | nil => simp [scanRefs] at h
  | cons a rest ih =>
    rw [scanRefs] at h
    rw [List.cons_append, scanRefs]
    split at h
    · next hb => simp [hb]; exact Option.some.inj h
    · next hb => simp [hb]; exact ih h

theorem scanRefs_none_not_mem {l : List String} {p : String} {i : Nat}
    (h : scanRefs l p i = none) : p ∉ l := by
  induction l generalizing i with
  | nil => simp
  | cons a rest ih =>
    rw [scanRefs] at h
    split at h
    · exact absurd h (Option.some_ne_none _)
    · next hb =>
      intro hm
      rcases List.mem_cons.mp hm with he | hm2
      · subst he
        simp at hb
      · exact ih h hm2

theorem scanRefs_snoc_self {l : List String} {p : String} {i : Nat}
    (h : scanRefs l p i = none) : scanRefs (l ++ [p]) p i = some (l.length + i + 1) := by
  induction l generalizing i with
  | nil => simp [scanRefs]
  | cons a rest ih =>
    rw [scanRefs] at h
    rw [List.cons_append, scanRefs]
    split at h
    · exact absurd h (Option.some_ne_none _)
    · next hb =>
      simp only [hb, if_false]
      rw [ih h]
      simp
      omega

/-- The reference produced by `assignReference` is the one the scan finds in
the table it leaves behind. -/
theorem assignReference_scan (refs : List String) (p : String) :
    scanRefs (assignReference refs p).2 p 0 = some (assignReference refs p).1 := by
  rw [assignReference]
  cases h : scanRefs refs p 0 with
  | some r => simpa using h
  | none => simpa using scanRefs_snoc_self h

/-- `assignReference` only appends to the table. -/
theorem assignReference_extend (refs : List String) (p : String) :
    ∃ δ, (assignReference refs p).2 = refs ++ δ := by
  rw [assignReference]
  cases h : scanRefs refs p 0 with
  | some r => exact ⟨[], by simp⟩
  | none => exact ⟨[p], by simp⟩

/-- `assignReference` preserves distinctness of the stored paths: a new
entry is appended only after the scan of the whole table missed. -/
theorem assignReference_nodup {refs : List String} (p : String) (h : refs.Nodup) :
    (assignReference refs p).2.Nodup := by
  rw [assignReference]
  cases hs : scanRefs refs p 0 with
  | some r => simpa using h
  | none =>
    have hnm := scanRefs_none_not_mem hs
    simp only
    rw [List.nodup_append]
    exact ⟨h, List.nodup_singleton p, by simpa using hnm⟩

/-- Every parse step only appends to the reference table and preserves
distinctness of its entries. -/
theorem parse_table_invariant : ∀ fuel : Nat,
    (∀ refs path v, (∃ δ, (parseVariableF fuel refs path v).refs = refs ++ δ) ∧
       (refs.Nodup → (parseVariableF fuel refs path v).refs.Nodup)) ∧
    (∀ refs path vars, (∃ δ, (parseVariablesF fuel refs path vars).refs = refs ++ δ) ∧
       (refs.Nodup → (parseVariablesF fuel refs path vars).refs.Nodup)) ∧
    (∀ refs acc vs, (∃ δ, (parseVarListF fuel refs acc vs).refs = refs ++ δ) ∧
       (refs.Nodup → (parseVarListF fuel refs acc vs).refs.Nodup)) := by
  intro fuel
  induction fuel with
  | zero =>
    exact ⟨fun refs path v => ⟨⟨[], by simp [parseVariableF, PRes.refs]⟩,
             fun h => by simpa [parseVariableF, PRes.refs] using h⟩,
           fun refs path vars => ⟨⟨[], by simp [parseVariablesF, PRes.refs]⟩,
             fun h => by simpa [parseVariablesF, PRes.refs] using h⟩,
           fun refs acc vs => ⟨⟨[], by simp [parseVarListF, PRes.refs]⟩,
             fun h => by simpa [parseVarListF, PRes.refs] using h⟩⟩
  | succ n ih =>
    obtain ⟨ihV, ihVs, ihL⟩ := ih
    refine ⟨?_, ?_, ?_⟩
    · intro refs path v
      rw [parseVariableF]
      split
      · exact ⟨⟨[], by simp [PRes.refs]⟩, fun h => by simpa [PRes.refs] using h⟩
      · split
        · obtain ⟨⟨δ1, hδ1⟩, hnd1⟩ := ihVs refs path (jsGetD v "values")
          cases hres : parseVariablesF n refs path (jsGetD v "values") with
          | ok ores refs1 =>
            rw [hres] at hδ1 hnd1
            simp only [PRes.refs] at hδ1 hnd1
            cases ores with
            | some values =>
              obtain ⟨δa, hδa⟩ := assignReference_extend refs1 path
              constructor
              · exact ⟨δ1 ++ δa, by
                  simp only [PRes.refs]
                  rw [hδa, hδ1, List.append_assoc]⟩
              · intro h
                have h2 := assignReference_nodup path (hnd1 h)
                simpa [PRes.refs] using h2
            | none =>
              exact ⟨⟨δ1, by simpa [PRes.refs] using hδ1⟩,
                     fun h => by simpa [PRes.refs] using hnd1 h⟩
          | thrown refs1 =>
            rw [hres] at hδ1 hnd1
            simp only [PRes.refs] at hδ1 hnd1
            exact ⟨⟨δ1, by simpa [PRes.refs] using hδ1⟩,
                   fun h => by simpa [PRes.refs] using hnd1 h⟩
        · exact ⟨⟨[], by simp [PRes.refs]⟩, fun h => by simpa [PRes.refs] using h⟩
    · intro refs path vars
      rcases vars with _ | v
      · exact ⟨⟨[], by simp [parseVariablesF, PRes.refs]⟩,
               fun h => by simpa [parseVariablesF, PRes.refs] using h⟩
      rcases v with _ | b | m | s | vs | fs
      case null =>
        exact ⟨⟨[], by simp [parseVariablesF, PRes.refs]⟩,
               fun h => by simpa [parseVariablesF, PRes.refs] using h⟩
      case bool =>
        cases b <;>
          exact ⟨⟨[], by simp [parseVariablesF, PRes.refs]⟩,
                 fun h => by simpa [parseVariablesF, PRes.refs] using h⟩
      case num =>
        constructor
        · refine ⟨[], ?_⟩
          rw [parseVariablesF]
          split <;> simp [PRes.refs]
        · intro h
          rw [parseVariablesF]
          split <;> simpa [PRes.refs] using h
      case str =>
        constructor
        · refine ⟨[], ?_⟩
          rw [parseVariablesF]
          split
          · simp [PRes.refs]
          · split <;> simp [PRes.refs]
        · intro h
          rw [parseVariablesF]
          split
          · simpa [PRes.refs] using h
          · split <;> simpa [PRes.refs] using h
      case obj =>
        exact ⟨⟨[], by simp [parseVariablesF, PRes.refs]⟩,
               fun h => by simpa [parseVariablesF, PRes.refs] using h⟩
      case arr =>
        obtain ⟨⟨δ1, hδ1⟩, hnd1⟩ := ihL refs (some (JVal.str path)) vs
        rw [parseVariablesF]
        cases hres : parseVarListF n refs (some (JVal.str path)) vs with
        | ok l refs1 =>
          rw [hres] at hδ1 hnd1
          simp only [PRes.refs] at hδ1 hnd1
          exact ⟨⟨δ1, by simpa [PRes.refs] using hδ1⟩,
                 fun h => by simpa [PRes.refs] using hnd1 h⟩
        | thrown refs1 =>
          rw [hres] at hδ1 hnd1
          simp only [PRes.refs] at hδ1 hnd1
          exact ⟨⟨δ1, by simpa [PRes.refs] using hδ1⟩,
                 fun h => by simpa [PRes.refs] using hnd1 h⟩
    · intro refs acc vs
      rcases vs with _ | ⟨v, rest⟩
      · exact ⟨⟨[], by simp [parseVarListF, PRes.refs]⟩,
               fun h => by simpa [parseVarListF, PRes.refs] using h⟩
      rw [parseVarListF]
      split
      · exact ⟨⟨[], by simp [PRes.refs]⟩, fun h => by simpa [PRes.refs] using h⟩
      · split
        · exact ⟨⟨[], by simp [PRes.refs]⟩, fun h => by simpa [PRes.refs] using h⟩
        · rename_i acc1 hacc
          split
          · rename_i p
            obtain ⟨⟨δ1, hδ1⟩, hnd1⟩ := ihV refs p v
            cases hres : parseVariableF n refs p v with
            | ok ou refs1 =>
              rw [hres] at hδ1 hnd1
              simp only [PRes.refs] at hδ1 hnd1
              cases ou with
              | some u =>
                dsimp only
                obtain ⟨⟨δ2, hδ2⟩, hnd2⟩ := ihL refs1 (some (JVal.str p)) rest
                cases hres2 : parseVarListF n refs1 (some (JVal.str p)) rest with
                | ok l refs2 =>
                  rw [hres2] at hδ2 hnd2
                  simp only [PRes.refs] at hδ2 hnd2
                  constructor
                  · exact ⟨δ1 ++ δ2, by
                      simp only [PRes.refs]
                      rw [hδ2, hδ1, List.append_assoc]⟩
                  · exact fun h => by simpa [PRes.refs] using hnd2 (hnd1 h)
                | thrown refs2 =>
                  rw [hres2] at hδ2 hnd2
                  simp only [PRes.refs] at hδ2 hnd2
                  constructor
                  · exact ⟨δ1 ++ δ2, by
                      simp only [PRes.refs]
                      rw [hδ2, hδ1, List.append_assoc]⟩
                  · exact fun h => by simpa [PRes.refs] using hnd2 (hnd1 h)
              | none =>
                dsimp only
                obtain ⟨⟨δ2, hδ2⟩, hnd2⟩ := ihL refs1 (some (JVal.str p)) rest
                refine ⟨⟨δ1 ++ δ2, ?_⟩, fun h => hnd2 (hnd1 h)⟩
                rw [hδ2, hδ1, List.append_assoc]
            | thrown refs1 =>
              rw [hres] at hδ1 hnd1
              simp only [PRes.refs] at hδ1 hnd1
              exact ⟨⟨δ1, by simpa [PRes.refs] using hδ1⟩,
                     fun h => by simpa [PRes.refs] using hnd1 h⟩
          · exact ihL refs _ rest

/-- A successful `parseVariable` that produced children drew its reference
from `assignReference`, applied to `path` and a table that extends the
input table (children are parsed, and may append, first). -/
theorem parseVariableF_children_ref {fuel : Nat} {refs : List String} {path : String}
    {v : JVal} {u : CFlatVariable} {refs2 : List String}
    (h : parseVariableF fuel refs path v = PRes.ok (some u) refs2)
    (hch : u.values ≠ none) :
    ∃ refs1 δ, refs1 = refs ++ δ ∧
      (assignReference refs1 path).1 = u.reference ∧
      (assignReference refs1 path).2 = refs2 := by
  cases fuel with
  | zero => simp [parseVariableF] at h
  | succ n =>
    rw [parseVariableF] at h
    split at h
    · exact absurd h (by simp)
    · split at h
      · cases hres : parseVariablesF n refs path (jsGetD v "values") with
        | ok ores refs1 =>
          rw [hres] at h
          cases ores with
          | some values =>
            simp only at h
            obtain ⟨⟨δ1, hδ1⟩, _⟩ := (parse_table_invariant n).2.1 refs path (jsGetD v "values")
            rw [hres] at hδ1
            simp only [PRes.refs] at hδ1
            injection h with hval hrefs
            injection hval with hval
            refine ⟨refs1, δ1, hδ1, ?_, ?_⟩
            · rw [← hval, CFlatVariable.reference]
            · exact hrefs
          | none =>
            simp only at h
            injection h with hval hrefs
            injection hval with hval
            rw [← hval, CFlatVariable.values] at hch
            exact absurd rfl hch
        | thrown refs1 =>
          rw [hres] at h
          exact absurd h (by simp)
      · exact absurd h (by simp)

/-- C5: for every path `p`, a parse of a node at `p` that produces children
assigns the node's reference by scanning the table for an existing entry
equal to `p` before appending a new one; the whole session only appends to
the table, a later parse of `p` from any extension of the table yields the
same reference, and the table keeps at most one entry per path. -/
theorem c5_reference_stability
    (refs : List String) (path : String) (v : JVal) (u : CFlatVariable)
    (refs2 : List String)
    (h : parseVariable refs path v = PRes.ok (some u) refs2)
    (hch : u.values ≠ none) :
    (∃ δ, refs2 = refs ++ δ) ∧
    scanRefs refs2 path 0 = some u.reference ∧
    (∀ Δ v2 w refs4, parseVariable (refs2 ++ Δ) path v2 = PRes.ok (some w) refs4 →
       w.values ≠ none → w.reference = u.reference) ∧
    (refs.Nodup → refs2.Nodup) := by
  have hF : parseVariableF (2 * jsize v + 1) refs path v = PRes.ok (some u) refs2 := h
  obtain ⟨refs1, δ, hδ, hr, hs⟩ := parseVariableF_children_ref hF hch
  have hscan : scanRefs refs2 path 0 = some u.reference := by
    rw [← hs, assignReference_scan, hr]
  refine ⟨?_, hscan, ?_, ?_⟩
  · obtain ⟨⟨δ0, hδ0⟩, _⟩ := (parse_table_invariant (2 * jsize v + 1)).1 refs path v
    rw [hF] at hδ0
    simp only [PRes.refs] at hδ0
    exact ⟨δ0, hδ0⟩
  · intro Δ v2 w refs4 h4 hw
    have h4F : parseVariableF (2 * jsize v2 + 1) (refs2 ++ Δ) path v2 =
        PRes.ok (some w) refs4 := h4
    obtain ⟨refs1a, δ2, hδ2, hr2, hs2⟩ := parseVariableF_children_ref h4F hw
    have hsc : scanRefs refs1a path 0 = some u.reference := by
      rw [hδ2, List.append_assoc]
      exact scanRefs_append_some _ hscan
    rw [← hr2, assignReference, hsc]
  · intro hnd
    obtain ⟨_, hndp⟩ := (parse_table_invariant (2 * jsize v + 1)).1 refs path v
    have hh := hndp hnd
    rw [hF] at hh
    simpa [PRes.refs] using hh

/-- A variable payload with a (trivially empty, but present) children array:
its parse allocates a reference. -/
def witVar : JVal := JVal.obj [("name", JVal.str "x"), ("type", JVal.str "T"),
  ("value", JVal.str "s"), ("values", JVal.arr [])]

/-- Witness for `c5_reference_stability` at a concrete input. -/
theorem c5_reference_stability_witness :
    (parseVariable [] "p" witVar =
        PRes.ok (some (CFlatVariable.mk "x" "T" "s" (some []) 1)) ["p"] ∧
      (CFlatVariable.mk "x" "T" "s" (some []) 1).values ≠ none) ∧
    scanRefs ["p"] "p" 0 = some (CFlatVariable.mk "x" "T" "s" (some []) 1).reference :=
  ⟨⟨rfl, by simp [CFlatVariable.values]⟩,
   (c5_reference_stability [] "p" witVar (CFlatVariable.mk "x" "T" "s" (some []) 1) ["p"] rfl
      (by simp [CFlatVariable.values])).2.1⟩

/-! ## Supporting lemmas: the execution controller -/

/-- A session with no pending timer and no in-flight request is inert under
environment activity: nothing can fire or be delivered. -/
theorem run_env_quiescent (s : RtState) (hT : s.timerPending = false)
    (hF : s.inFlight = []) :
    ∀ acts : List Act, (∀ a ∈ acts, isEnvAct a = true) → run s acts = s := by
  intro acts h
  induction acts with
  | nil => rfl
  | cons a rest ih =>
    have ha : isEnvAct a = true := h a (by simp)
    have hstep : step s a = s := by
      cases a with
      | fireTimer => simp [step, hT]
      | deliver k d => simp [step, hF]
      | callStart => simp [isEnvAct] at ha
      | callStop => simp [isEnvAct] at ha
      | callContinue => simp [isEnvAct] at ha
      | callStep => simp [isEnvAct] at ha
      | callPause => simp [isEnvAct] at ha
    have hrest : ∀ a2 ∈ rest, isEnvAct a2 = true := fun a2 hm => h a2 (by simp [hm])
    calc run s (a :: rest) = run (step s a) rest := rfl
      _ = run s rest := by rw [hstep]
      _ = s := ih hrest

/-- C3 (confirmed): on the poll-response sequence Running, Running,
BreakpointPaused, the loop reschedules exactly twice, emits
`stopOnBreakpoint` exactly once, and afterwards the session is inert under
any further timer/transport activity (no further rescheduling). -/
theorem c3_poll_reschedule_twice :
    run initState [Act.callStart,
      Act.deliver ReqKind.poll (Delivery.jsonBody (execResp "Running")),
      Act.fireTimer,
      Act.deliver ReqKind.poll (Delivery.jsonBody (execResp "Running")),
      Act.fireTimer,
      Act.deliver ReqKind.poll (Delivery.jsonBody (execResp "BreakpointPaused"))] =
      ⟨false, [], ["stopOnBreakpoint"], 2, 0⟩ ∧
    (∀ acts : List Act, (∀ a ∈ acts, isEnvAct a = true) →
      run ⟨false, [], ["stopOnBreakpoint"], 2, 0⟩ acts =
        ⟨false, [], ["stopOnBreakpoint"], 2, 0⟩) :=
  ⟨rfl, run_env_quiescent _ rfl rfl⟩

/-- Witness for `c3_poll_reschedule_twice` at a concrete act sequence. -/
theorem c3_poll_reschedule_twice_witness :
    run ⟨false, [], ["stopOnBreakpoint"], 2, 0⟩
      [Act.fireTimer, Act.deliver ReqKind.poll Delivery.transportError] =
      ⟨false, [], ["stopOnBreakpoint"], 2, 0⟩ :=
  c3_poll_reschedule_twice.2
    [Act.fireTimer, Act.deliver ReqKind.poll Delivery.transportError]
    (by intro a ha
        simp only [List.mem_cons, List.mem_singleton] at ha
        rcases ha with h | h | h
        · rw [h]; rfl
        · rw [h]; rfl
        · cases h)

/-- C2 (counterexample to the claim): a poll response carrying
`ExternalPaused` emits no event at all — in particular no `stopOnPause` —
and does not reschedule: the final state has an empty event list. -/
theorem c2_poll_external_paused_counterexample :
    run initState [Act.callStart,
      Act.deliver ReqKind.poll (Delivery.jsonBody (execResp "ExternalPaused"))] =
      ⟨false, [], [], 0, 0⟩ :=
  rfl

/-- C2 (amended): on an `ExternalPaused` poll response the poll callback
does nothing — no event, no rescheduling (the timer is simply not set
again); the `stopOnPause` event is emitted only by `handleExecution`, the
control-command response handler. -/
theorem c2_poll_external_paused_amended (s : RtState) (resp : JVal)
    (h1 : jsGetD resp "execution" = some (JVal.str "ExternalPaused")) :
    pollCallback s resp = s ∧
    handleExecution s resp =
      { s with events := s.events ++ ["stopOnPause"], timerPending := false } := by
  have hnn : isNull resp = false := by
    cases resp <;> first | rfl | simp [jsGetD] at h1
  constructor
  · rw [pollCallback, if_neg (by simp [hnn])]
    simp [h1, isStr]
  · rw [handleExecution, if_neg (by simp [hnn])]
    simp [h1, isStr]

/-- Witness for `c2_poll_external_paused_amended` at a concrete state and
response. -/
theorem c2_poll_external_paused_witness :
    pollCallback initState (execResp "ExternalPaused") = initState ∧
    handleExecution initState (execResp "ExternalPaused") =
      { initState with events := initState.events ++ ["stopOnPause"],
                       timerPending := false } :=
  c2_poll_external_paused_amended initState (execResp "ExternalPaused") rfl

/-- C1 (counterexample to the claim): (1) a string response body with an
unrecognized content type on an in-flight poll request terminates nothing
and emits nothing — the callback is never invoked, so the session ends with
no `"end"` event and no rescheduling (the poll loop silently dies); (2) with
two requests in flight (a command and the poll restarted by `continue()`),
transport errors on both emit `"end"` twice, not exactly once. -/
theorem c1_transport_failure_counterexample :
    run initState [Act.callStart, Act.deliver ReqKind.poll Delivery.otherContentType] =
      ⟨false, [], [], 0, 0⟩ ∧
    run initState [Act.callContinue, Act.deliver ReqKind.command Delivery.transportError,
      Act.deliver ReqKind.poll Delivery.transportError] =
      ⟨false, [], ["end", "end"], 0, 0⟩ :=
  ⟨rfl, rfl⟩

/-- C1 (amended): a transport-level error on any in-flight request runs
`stop()` — it cancels the poll timer, emits one `"end"` event for that
request (so several in-flight failures emit several `"end"` events), and
does not reschedule; a string body with an unexpected content type is
silently dropped (no callback, no event, no state change beyond the request
completing); an `application/json` body that fails to parse raises an
uncaught exception inside the response handler. -/
theorem c1_transport_failure_amended (s : RtState) (k : ReqKind)
    (hk : s.inFlight.contains k = true) :
    step s (Act.deliver k Delivery.transportError) =
      { s with timerPending := false, inFlight := s.inFlight.erase k,
               events := s.events ++ ["end"] } ∧
    step s (Act.deliver k Delivery.otherContentType) =
      { s with inFlight := s.inFlight.erase k } ∧
    step s (Act.deliver k Delivery.badJsonBody) =
      { s with inFlight := s.inFlight.erase k, uncaught := s.uncaught + 1 } := by
  have hk2 : k ∈ s.inFlight := by simpa using hk
  refine ⟨?_, ?_, ?_⟩ <;> simp [step, hk2, dispatch, stopOp]

/-- Witness for `c1_transport_failure_amended` at a concrete state. -/
theorem c1_transport_failure_witness :
    step ⟨false, [ReqKind.poll], [], 0, 0⟩
        (Act.deliver ReqKind.poll Delivery.transportError) =
      ⟨false, [], ["end"], 0, 0⟩ ∧
    step ⟨false, [ReqKind.poll], [], 0, 0⟩
        (Act.deliver ReqKind.poll Delivery.otherContentType) =
      ⟨false, [], [], 0, 0⟩ ∧
    step ⟨false, [ReqKind.poll], [], 0, 0⟩
        (Act.deliver ReqKind.poll Delivery.badJsonBody) =
      ⟨false, [], [], 0, 1⟩ :=
  c1_transport_failure_amended ⟨false, [ReqKind.poll], [], 0, 0⟩ ReqKind.poll (by decide)

/-- C4 (counterexample to the claim): `stop()` is not idempotent — a second
call emits a second `"end"` event; and a poll response that arrives after
`stop()` is not ignored: a `Running` response reschedules the poll loop
(timer pending again, reschedule count 1) even though the session already
reported terminated. -/
theorem c4_stop_counterexample :
    run initState [Act.callStop, Act.callStop] = ⟨false, [], ["end", "end"], 0, 0⟩ ∧
    run initState [Act.callStart, Act.callStop,
      Act.deliver ReqKind.poll (Delivery.jsonBody (execResp "Running"))] =
      ⟨true, [], ["end"], 1, 0⟩ :=
  ⟨rfl, rfl⟩

/-- C4 (amended): every call of `stop()` cancels the poll timer and emits an
`"end"` event (calling it twice emits two); responses that arrive for
requests still in flight after `stop()` are handled normally by their
callbacks — in particular a `Running` poll response reschedules polling. -/
theorem c4_stop_behavior_amended :
    (∀ s : RtState, stopOp s =
      { s with timerPending := false, events := s.events ++ ["end"] }) ∧
    (∀ s : RtState, stopOp (stopOp s) =
      { s with timerPending := false, events := (s.events ++ ["end"]) ++ ["end"] }) ∧
    run initState [Act.callStart, Act.callStop,
      Act.deliver ReqKind.poll (Delivery.jsonBody (execResp "Running"))] =
      ⟨true, [], ["end"], 1, 0⟩ :=
  ⟨fun _ => rfl, fun _ => rfl, rfl⟩

/-- Indices assigned by the stackTrace translation loop are the positions
in the output array: pushed frames get `index = frames.length` at push
time. -/
theorem translateFrames_map_index :
    ∀ (l : List JVal) (acc fs : List StackFrame),
      acc.map StackFrame.index = List.range acc.length →
      translateFrames acc l = some fs →
      fs.map StackFrame.index = List.range fs.length := by
  intro l
  induction l with
  | nil =>
    intro acc fs hacc h
    rw [translateFrames] at h
    injection h with h
    rw [← h]
    exact hacc
  | cons f rest ih =>
    intro acc fs hacc h
    rw [translateFrames] at h
    split at h
    · cases h
    · split at h
      · refine ih _ fs ?_ h
        simp [List.map_append, hacc, List.range_succ]
      · exact ih acc fs hacc h

/-- The stack payloads of a five-frame remote stack. -/
def remoteFrame (nm : String) : JVal :=
  JVal.obj [("name", JVal.str nm), ("sourceUri", JVal.str "u"),
            ("line", JVal.num 1), ("column", JVal.num 2)]

def remoteStack5 : JVal :=
  JVal.arr [remoteFrame "f0", remoteFrame "f1", remoteFrame "f2",
            remoteFrame "f3", remoteFrame "f4"]

/-- C9 (confirmed): stackTrace translates the remote frames in order with
sequential indices 0..N-1, windows the result to
`[startFrame, startFrame + frameCount)`, and an out-of-range window gives
an empty page rather than an error (concretely: 5 remote frames, window
(0,2) gives the frames indexed 0 and 1, window (10,2) gives []); and
`variables` with an unknown (out-of-range) reference replies `[]` at once,
while an evaluate response that fails to parse or carries no children also
yields `[]`, never an error. -/
theorem c9_stackTrace_window_stale_refs :
    (∀ l fs, translateFrames [] l = some fs →
       fs.map StackFrame.index = List.range fs.length) ∧
    (∀ l fs s c, translateFrames [] l = some fs →
       stackTrace (JVal.arr l) s c = some ((fs.drop s).take c)) ∧
    (∀ l fs s c, translateFrames [] l = some fs → fs.length ≤ s →
       stackTrace (JVal.arr l) s c = some []) ∧
    (stackTrace remoteStack5 0 2 =
       some [⟨0, "f0", "u", 1, 2⟩, ⟨1, "f1", "u", 1, 2⟩] ∧
     stackTrace remoteStack5 10 2 = some []) ∧
    (∀ refs (reference : Int), (refs.length : Int) < reference →
       variablesDispatch refs reference = VarsAction.reply []) ∧
    (∀ refs path v refs1, parseVariable refs path v = PRes.ok none refs1 →
       variablesViaEvaluate refs path v = PRes.ok [] refs1) ∧
    (∀ refs path v u refs1, parseVariable refs path v = PRes.ok (some u) refs1 →
       u.values = none → variablesViaEvaluate refs path v = PRes.ok [] refs1) := by
  refine ⟨?_, ?_, ?_, ⟨rfl, rfl⟩, ?_, ?_, ?_⟩
  · intro l fs h
    exact translateFrames_map_index l [] fs rfl h
  · intro l fs s c h
    simp [stackTrace, h]
  · intro l fs s c h hle
    simp [stackTrace, h, List.drop_eq_nil_of_le hle]
  · intro refs reference h
    have h0 : (0 : Int) < reference := by omega
    rw [variablesDispatch, if_pos h0, if_neg (by omega)]
  · intro refs path v refs1 h
    simp [variablesViaEvaluate, h, childrenOrEmpty]
  · intro refs path v u refs1 h hvals
    simp [variablesViaEvaluate, h, childrenOrEmpty, hvals]

/-- Witness for `c9_stackTrace_window_stale_refs` at concrete inputs. -/
theorem c9_stackTrace_window_witness :
    variablesDispatch ["a"] 5 = VarsAction.reply [] ∧
    stackTrace remoteStack5 10 2 = some [] :=
  ⟨c9_stackTrace_window_stale_refs.2.2.2.2.1 ["a"] 5 (by decide),
   c9_stackTrace_window_stale_refs.2.2.2.1.2⟩

/-- Sibling payloads, each with children, under a parent at path `p`. -/
def siblingA : JVal := JVal.obj [("name", JVal.str "a"), ("type", JVal.str "S"),
  ("value", JVal.str "va"), ("values", JVal.arr [JVal.obj [("name", JVal.str "x"),
    ("type", JVal.str "Int"), ("value", JVal.str "0")]])]

def siblingB : JVal := JVal.obj [("name", JVal.str "b"), ("type", JVal.str "S"),
  ("value", JVal.str "vb"), ("values", JVal.arr [JVal.obj [("name", JVal.str "y"),
    ("type", JVal.str "Int"), ("value", JVal.str "1")]])]

/-- C6 (code bug): for two sibling children `a` and `b` of a parent at path
`p`, the table is supposed to store `p.a` and `p.b`; the code reassigns the
`path` variable inside the loop (line 195), so `b` is parsed at `p.a.b` and
the table stores `["p.a", "p.a.b"]` — `p.b` is never stored.  (The
reference still equals the stored entry's index plus one.) -/
theorem c6_sibling_path_accumulation_bug :
    parseVariables [] "p" (some (JVal.arr [siblingA, siblingB])) =
      PRes.ok (some
        [CFlatVariable.mk "a" "S" "va" (some [CFlatVariable.mk "x" "Int" "0" none 0]) 1,
         CFlatVariable.mk "b" "S" "vb" (some [CFlatVariable.mk "y" "Int" "1" none 0]) 2])
        ["p.a", "p.a.b"] ∧
    ("p.b" ∈ ["p.a", "p.a.b"] → False) :=
  ⟨rfl, by decide⟩

/-- A malformed entry (no `name`) followed by a well-typed sibling. -/
def entryNoName : JVal := JVal.obj [("type", JVal.str "Int"), ("value", JVal.str "1")]

def entryGood : JVal := JVal.obj [("name", JVal.str "x"), ("type", JVal.str "Int"),
  ("value", JVal.str "1")]

/-- C8 (code bug): parsing the root value list (empty parent path), an entry
with a missing `name` makes the reassigned `path` variable `undefined`, and
the next iteration throws a TypeError reading `undefined.length` — the
well-typed sibling is never parsed.  At any nonempty parent path the same
payload behaves as the claim says: the malformed entry is dropped and the
sibling is parsed. -/
theorem c8_malformed_entry_root_throw_bug :
    parseVariables [] "" (some (JVal.arr [entryNoName, entryGood])) = PRes.thrown [] ∧
    parseVariables [] "loc" (some (JVal.arr [entryNoName, entryGood])) =
      PRes.ok (some [CFlatVariable.mk "x" "Int" "1" none 0]) [] :=
  ⟨rfl, rfl⟩

/-- C7 (confirmed): `setBreakPoints` normalizes its input path (every
backslash becomes `/`, exactly one trailing `.` + word-characters suffix is
stripped), sends `src/a` with the full requested line set, and returns
exactly the remote's canonical URI and verified lines: requested line 5 is
absent because the remote did not verify it. -/
theorem c7_setBreakPoints_normalization :
    parseUri "src\\a.cf" = "src/a" ∧
    parseUri "src\\a.b.cf" = "src/a.b" ∧
    setBreakPoints "src\\a.cf" [3, 5]
        (JVal.obj [("sourceUri", JVal.str "src/a"),
                   ("breakpoints", JVal.arr [JVal.num 3])]) =
      ("/breakpoints/set?path=src/a&lines=3,5", some ("src/a", [3])) :=
  ⟨rfl, rfl, rfl⟩

/-- C10 (confirmed): when a non-null breakpoints-set response has a missing
or non-string `sourceUri`, the callback still completes, with the
normalized input path and an empty verified-line list. -/
theorem c10_missing_sourceUri_fallback (path : String) (lines : List Int) (r : JVal)
    (hr : isNull r = false)
    (hs : ∀ u, jsGetD r "sourceUri" ≠ some (JVal.str u)) :
    setBreakPoints path lines r =
      (setBreakPointsRequest path lines, some (parseUri path, [])) := by
  have hh : setBreakPointsHandler (parseUri path) r = some (parseUri path, []) := by
    rw [setBreakPointsHandler, if_neg (by simp [hr])]
    split
    · rename_i u hu
      exact absurd hu (hs u)
    · rfl
  simp [setBreakPoints, hh]

/-- Witness for `c10_missing_sourceUri_fallback` at a concrete response. -/
theorem c10_missing_sourceUri_witness :
    setBreakPoints "a\\b.cf" [3] (JVal.obj [("breakpoints", JVal.arr [JVal.num 3])]) =
      (setBreakPointsRequest "a\\b.cf" [3], some (parseUri "a\\b.cf", [])) :=
  c10_missing_sourceUri_fallback "a\\b.cf" [3] _ rfl
    (by intro u; simp [jsGetD, findField])
